import Mathlib

/-!
Verification development for the SARI bookkeeping application (src/App.tsx).

The definitions below are a shallow embedding of the ingestion/classification
pipeline (`processFile`), the aggregation engine (`dashboardStats`,
`reportStats`, `optimizeChartData`), the debt grouper (`debtList`) and the
settlement operation (`handleSettleClientDebt`).  JavaScript numbers are
modelled as rationals (ℚ), `NaN` outcomes as `Option.none`, spreadsheet cells
as an inductive `Cell` type (string / number / empty, where `empty` stands for
the absent, `null` and `undefined` cells, all of which are falsy and compare
loosely equal to `null`).  Lowercasing is modelled on the ASCII range, which
is the identity on the Arabic keywords the classifier uses.
-/

namespace Sari

/-- `type` field of a Transaction (src/App.tsx line 27). -/
inductive TransactionType where
  | sale
  | expense
  | refund
  | debt
  | cash
deriving DecidableEq, Repr

/-- `status` field of a Transaction (src/App.tsx line 26). -/
inductive TransactionStatus where
  | completed
  | pending
  | failed
deriving DecidableEq, Repr

/-- Currency of a Transaction (src/App.tsx line 49). -/
inductive Currency where
  | usd
  | iqd
deriving DecidableEq, Repr

/-- The Transaction record (src/App.tsx lines 40-53).  Amounts are rationals
(JS numbers); optional fields are `Option`s. -/
structure Transaction where
  id : String
  type : TransactionType
  client : String
  clientPhone : Option String := none
  itemId : Option String := none
  date : String
  time : String := "12:00"
  amount : ℚ
  currency : Currency
  status : TransactionStatus
  method : String := "Import"
  rawText : Option String := none
deriving DecidableEq, Repr

/-- An inventory item (src/App.tsx lines 30-38); only the fields the import
pipeline reads are kept. -/
structure InventoryItem where
  id : String
  name : String
deriving DecidableEq, Repr

/-- A spreadsheet cell as delivered by the decoder worker: a string, a
number, or empty (absent / null / undefined). -/
inductive Cell where
  | str (s : String)
  | num (q : ℚ)
  | empty
deriving DecidableEq, Repr

/-- The fixed exchange rate (src/App.tsx line 92). -/
def EXCHANGE_RATE : ℚ := 1520

/-- ASCII lowercasing, the embedding of JS `toLowerCase` (identity on the
Arabic keywords used by the classifier). -/
def lowerStr (s : String) : String := ⟨s.toList.map Char.toLower⟩

/-- Embedding of JS `String.prototype.trim`: strip whitespace at both
ends. -/
def jsTrim (s : String) : String :=
  ⟨((s.toList.dropWhile Char.isWhitespace).reverse.dropWhile
      Char.isWhitespace).reverse⟩

/-- JS `String.prototype.includes`: substring containment. -/
def strIncludes (s sub : String) : Bool := decide (sub.toList <:+: s.toList)

/-- Decimal digits of a natural number. -/
def natDigits (n : Nat) : String := toString n

/-- Decimal digit string of the fractional part of `q ∈ [0,1)`, with fuel
(terminating decimals are rendered exactly; the fuel is never exhausted on
the finite-decimal numbers a spreadsheet holds). -/
def fracDigits : Nat → ℚ → String
  | 0, _ => ""
  | fuel + 1, q =>
    if q = 0 then ""
    else
      let q10 := q * 10
      let d := (⌊q10⌋).toNat
      natDigits d ++ fracDigits fuel (q10 - d)

/-- Embedding of JS `String(n)` / `Number.prototype.toString` for the
finite-decimal rationals that occur as spreadsheet numbers. -/
def jsNumToString (q : ℚ) : String :=
  let sign := if q < 0 then "-" else ""
  let a := |q|
  let ip := (⌊a⌋).toNat
  let fr := a - ip
  if fr = 0 then sign ++ natDigits ip
  else sign ++ natDigits ip ++ "." ++ fracDigits 30 fr

/-- JS `String(cell)`: strings unchanged, numbers via decimal rendering,
null/undefined/absent as the empty string (the way `Array.join` treats
them). -/
def cellStr : Cell → String
  | .str s => s
  | .num q => jsNumToString q
  | .empty => ""

/-- JS truthiness of a cell value: non-empty strings and non-zero numbers
are truthy; null/undefined/absent are falsy. -/
def truthy : Cell → Bool
  | .str s => s ≠ ""
  | .num q => q ≠ 0
  | .empty => false

/-- `cell != null`, JS loose inequality: false exactly for null/undefined. -/
def notNull : Cell → Bool
  | .empty => false
  | _ => true

/-- The regex `\d{4}-\d{2}-\d{2}` matches at the head of this character
list. -/
def datePatAt : List Char → Bool
  | a :: b :: c :: d :: '-' :: e :: f :: '-' :: g :: h :: _ =>
    a.isDigit && b.isDigit && c.isDigit && d.isDigit &&
    e.isDigit && f.isDigit && g.isDigit && h.isDigit
  | _ => false

/-- `s.match(/\d{4}-\d{2}-\d{2}/)` is non-null: the date pattern occurs
somewhere in the string. -/
def containsDatePat : List Char → Bool
  | [] => false
  | c :: rest => datePatAt (c :: rest) || containsDatePat rest

/-- A full `YYYY-MM-DD` date string (exactly ten characters, digits and
dashes in place) — the spec side notion of "a valid YYYY-MM-DD date
string". -/
def isFullDatePat (s : String) : Bool := s.length = 10 && datePatAt s.toList

/-- `rawPrice.replace(/[^0-9.]/g, '')` (src/App.tsx line 689): keep only
digits and dots. -/
def stripAmountChars (s : String) : String :=
  ⟨s.toList.filter (fun c => c.isDigit || c == '.')⟩

/-- Numeric value of a digit list read in base 10. -/
def digitsVal (l : List Char) : Nat :=
  l.foldl (fun n c => 10 * n + (c.toNat - 48)) 0

/-- JS `parseFloat` on a string made of digits and dots only (the output of
`stripAmountChars`): the longest valid-float prefix is parsed,
`none` models `NaN`. -/
def parseFloatQ (s : String) : Option ℚ :=
  let l := s.toList
  let ds1 := l.takeWhile Char.isDigit
  let rest := l.dropWhile Char.isDigit
  match rest with
  | '.' :: rest2 =>
    let ds2 := rest2.takeWhile Char.isDigit
    if ds1.isEmpty && ds2.isEmpty then none
    else some ((digitsVal ds1 : ℚ) + (digitsVal ds2 : ℚ) / (10 : ℚ) ^ ds2.length)
  | _ => if ds1.isEmpty then none else some (digitsVal ds1 : ℚ)

/-- Expense keyword list (src/App.tsx line 667). -/
def expenseKeywords : List String :=
  ["فاتورة", "ايجار", "راتب", "كهرباء", "انترنت", "صيانة", "شراء", "صرف",
   "expense", "bill", "rent", "salary"]

/-- Debt keyword list (src/App.tsx line 668). -/
def debtKeywords : List String :=
  ["دين", "اجل", "آجل", "قرض", "debt", "credit"]

/-- Keyword classification of an extracted name (src/App.tsx lines 702-712):
expense keywords are checked first, then debt keywords, default sale. -/
def classifyName (clientName : String) : TransactionType × TransactionStatus :=
  let lowerName := lowerStr clientName
  if expenseKeywords.any (fun k => strIncludes lowerName k) then
    (.expense, .completed)
  else if debtKeywords.any (fun k => strIncludes lowerName k) then
    (.debt, .pending)
  else
    (.sale, .completed)

/-- The header-locator result: detected header row (if any), the three
semantic column indices after fallback, and the first data row index. -/
structure HeaderInfo where
  headerRowIdx : Option Nat
  nameCol : Nat
  priceCol : Nat
  dateCol : Nat
  startRow : Nat
deriving DecidableEq, Repr

/-- Does a cell name the `name` column (src/App.tsx line 650)? -/
def nameKeyB (s : String) : Bool :=
  s == "menu_item_name" || s == "name" || s == "product"

/-- Does a cell name the `price` column (src/App.tsx line 651)? -/
def priceKeyB (s : String) : Bool :=
  s == "actual_selling_price" || s == "price" || s == "amount"

/-- Does a cell name the `date` column (src/App.tsx line 652)? -/
def dateKeyB (s : String) : Bool :=
  s == "date" || s == "time"

/-- `String(cell).toLowerCase().trim()` (src/App.tsx line 649). -/
def normCell (c : Cell) : String := jsTrim (lowerStr (cellStr c))

/-- One semantic column's index within a header row: scan all cells, later
matches overwriting earlier ones (the `forEach` of src/App.tsx lines
648-653). -/
def findColIdx (keyB : String → Bool) (row : List Cell) : Option Nat :=
  row.enum.foldl
    (fun acc p => if keyB (normCell p.2) then some p.1 else acc) none

/-- `rows[i].join(' ').toLowerCase()` contains `menu_item_name` or `name`
(src/App.tsx lines 644-645). -/
def headerPred (row : List Cell) : Bool :=
  let rowStr := lowerStr (String.intercalate " " (row.map cellStr))
  strIncludes rowStr "menu_item_name" || strIncludes rowStr "name"

/-- First row among the first `min(rows.length, 10)` rows satisfying
`headerPred` (the search loop of src/App.tsx lines 643-656). -/
def findHeaderIdx (rows : List (List Cell)) : Option Nat :=
  (List.range (min rows.length 10)).find? (fun i => headerPred (rows.getD i []))

/-- The header locator (src/App.tsx lines 637-664): detect the header row,
map columns within it, apply the fixed fallbacks 3/8/0 for unmapped
columns, and compute the first data row. -/
def locateHeader (rows : List (List Cell)) : HeaderInfo :=
  match findHeaderIdx rows with
  | some i =>
    let row := rows.getD i []
    { headerRowIdx := some i
      nameCol := (findColIdx nameKeyB row).getD 3
      priceCol := (findColIdx priceKeyB row).getD 8
      dateCol := (findColIdx dateKeyB row).getD 0
      startRow := i + 1 }
  | none =>
    { headerRowIdx := none, nameCol := 3, priceCol := 8, dateCol := 0,
      startRow := 1 }

/-- The name-fallback scan predicate (src/App.tsx line 680): a string cell
of length > 2, without a comma, not matching the date pattern. -/
def nameFallbackB : Cell → Bool
  | .str s => s.length > 2 && !(s.toList.contains ',') && !(containsDatePat s.toList)
  | _ => false

/-- Name extraction for a data row (src/App.tsx lines 675-682). -/
def extractName (nameCol : Nat) (row : List Cell) : String :=
  let c := row.getD nameCol .empty
  if truthy c then cellStr c
  else
    match row.find? nameFallbackB with
    | some cand => cellStr cand
    | none => "مادة مستوردة"

/-- Amount extraction for a data row (src/App.tsx lines 684-690).  `none`
stands for JS `NaN`; a missing/null price cell leaves the initial amount
`0`. -/
def extractAmount (priceCol : Nat) (row : List Cell) : Option ℚ :=
  match row.getD priceCol .empty with
  | .num q => some q
  | .str s => parseFloatQ (stripAmountChars s)
  | .empty => some 0

/-- Date extraction for a data row (src/App.tsx lines 692-697): a truthy
date cell whose string form matches the (unanchored) date regex is used
verbatim, anything else yields today's date. -/
def extractDate (today : String) (dateCol : Nat) (row : List Cell) : String :=
  let c := row.getD dateCol .empty
  if truthy c then
    let rawDate := cellStr c
    if containsDatePat rawDate.toList then rawDate else today
  else today

/-- Whether the row is dropped by `if (!amount) continue;` (src/App.tsx
line 699): amount is `NaN` or `0`. -/
def amountFalsy : Option ℚ → Bool
  | none => true
  | some q => q == 0

/-- Processing of one data row (the loop body, src/App.tsx lines 670-728):
empty rows and rows with falsy amount yield nothing, all other rows yield a
Transaction.  The random `generateId` is embedded as the empty string. -/
def processRow (inv : List InventoryItem) (today : String) (h : HeaderInfo)
    (row : List Cell) : Option Transaction :=
  if row.isEmpty then none
  else
    let clientName := extractName h.nameCol row
    let amt := extractAmount h.priceCol row
    let finalDate := extractDate today h.dateCol row
    if amountFalsy amt then none
    else
      let ts := classifyName clientName
      let matched := inv.find? (fun itm => lowerStr itm.name == lowerStr clientName)
      some
        { id := ""
          type := ts.1
          client := clientName
          clientPhone := none
          itemId := matched.map (fun itm => itm.id)
          date := finalDate
          time := "12:00"
          amount := |(amt.getD 0)|
          currency := .iqd
          status := ts.2
          method := "Import"
          rawText := none }

/-- The whole import pipeline on a decoded grid (src/App.tsx lines
632-730): locate the header, then process every row from the first data
row on. -/
def processGrid (inv : List InventoryItem) (today : String)
    (rows : List (List Cell)) : List Transaction :=
  let h := locateHeader rows
  (rows.drop h.startRow).filterMap (processRow inv today h)

/-- Proleptic-Gregorian leap-year test. -/
def isLeap (y : Nat) : Bool := (y % 4 == 0 && y % 100 != 0) || y % 400 == 0

/-- Days before month `m` (1-12) in a non-leap year. -/
def daysBeforeMonth : Nat → Nat
  | 1 => 0 | 2 => 31 | 3 => 59 | 4 => 90 | 5 => 120 | 6 => 151
  | 7 => 181 | 8 => 212 | 9 => 243 | 10 => 273 | 11 => 304 | 12 => 334
  | _ => 0

/-- Value of a digit character. -/
def digitVal (c : Char) : Nat := c.toNat - 48

/-- Embedding of `new Date(s).getTime()` for ISO `YYYY-MM-DD` strings: a
day count that is order-isomorphic to the JS time value (month 01-12 and
day 01-31 as the ISO grammar requires; day overflow past the month's end
spills into the next month exactly as JS `MakeDay` does).  `none` models an
invalid date (`NaN` time value); date-time strings and other formats are
outside the embedding. -/
def dateVal (s : String) : Option Nat :=
  match s.toList with
  | [y1, y2, y3, y4, '-', m1, m2, '-', d1, d2] =>
    if y1.isDigit && y2.isDigit && y3.isDigit && y4.isDigit &&
       m1.isDigit && m2.isDigit && d1.isDigit && d2.isDigit then
      let y := 1000 * digitVal y1 + 100 * digitVal y2 + 10 * digitVal y3 + digitVal y4
      let m := 10 * digitVal m1 + digitVal m2
      let d := 10 * digitVal d1 + digitVal d2
      if 1 ≤ m && m ≤ 12 && 1 ≤ d && d ≤ 31 then
        some (365 * y + (y + 3) / 4 - (y + 99) / 100 + (y + 399) / 400 +
              daysBeforeMonth m + (if 2 < m && isLeap y then 1 else 0) + d)
      else none
    else none
  | _ => none

/-- Amount normalized to USD (`t.currency === 'IQD' ? t.amount / EXCHANGE_RATE
: t.amount`, src/App.tsx lines 344, 389). -/
def normVal (t : Transaction) : ℚ :=
  if t.currency == Currency.iqd then t.amount / EXCHANGE_RATE else t.amount

/-- One point of the report's per-day chart series. -/
structure ChartPoint where
  fullDate : String
  date : String
  revenue : ℚ
  expenses : ℚ
deriving DecidableEq, Repr

/-- JS `Math.round`: round half toward positive infinity. -/
def jsRound (q : ℚ) : ℤ := ⌊q + 1 / 2⌋

/-- Cut a list into consecutive chunks of size `n + 1` (the
`data.slice(i, i + windowSize)` loop of src/App.tsx lines 198-211). -/
def chunksAux (n : Nat) : List ChartPoint → List (List ChartPoint)
  | [] => []
  | x :: xs => (List.take (n + 1) (x :: xs)) :: chunksAux n (List.drop n xs)
termination_by l => l.length
decreasing_by simp; omega

/-- Replace a window by one averaged point (src/App.tsx lines 202-210): the
revenue/expense means rounded by `Math.round`, labelled with the window's
first point's dates. -/
def avgPoint (w : List ChartPoint) : ChartPoint :=
  let h := w.headD ⟨"", "", 0, 0⟩
  { fullDate := h.fullDate
    date := h.date
    revenue := (jsRound ((w.map (fun p => p.revenue)).sum / (w.length : ℚ)) : ℚ)
    expenses := (jsRound ((w.map (fun p => p.expenses)).sum / (w.length : ℚ)) : ℚ) }

/-- The chart downsampler `optimizeChartData` (src/App.tsx lines 192-213).
`(len + limit - 1) / limit` is `Math.ceil(len / limit)` for the positive
`limit` the caller passes. -/
def optimizeChartData (data : List ChartPoint) (limit : Nat) : List ChartPoint :=
  if data.length ≤ limit then data
  else
    let windowSize := (data.length + limit - 1) / limit
    (chunksAux (windowSize - 1) data).map avgPoint

/-- Downsampling with cap 100 as the spec words it: partition the series
into consecutive windows of size `ceil(length / 100)` (the window at rank
`i` holding the points at positions `i*w ..< i*w+w`, the last one possibly
shorter), each replaced by its averaged point. -/
def downsampleSpec (data : List ChartPoint) : List ChartPoint :=
  if data.length ≤ 100 then data
  else
    let w := (data.length + 99) / 100
    (List.range ((data.length + w - 1) / w)).map
      (fun i => avgPoint ((data.drop (i * w)).take w))

/-- The scalar accumulators of the report pass (src/App.tsx line 381). -/
structure ReportSums where
  revenue : ℚ
  expenses : ℚ
  pendingDebt : ℚ
  collectedDebt : ℚ
deriving DecidableEq, Repr

/-- One step of the report accumulation (the branch structure of
src/App.tsx lines 396-417, restricted to the scalar accumulators). -/
def reportStep (s : ReportSums) (t : Transaction) : ReportSums :=
  let val := normVal t
  if t.type == TransactionType.sale && t.status == TransactionStatus.completed then
    { s with revenue := s.revenue + val }
  else if t.type == TransactionType.expense then
    { s with expenses := s.expenses + val }
  else if t.type == TransactionType.debt then
    if t.status == TransactionStatus.pending then
      { s with pendingDebt := s.pendingDebt + val }
    else if t.status == TransactionStatus.completed then
      { s with collectedDebt := s.collectedDebt + val, revenue := s.revenue + val }
    else s
  else s

/-- The report's date filter (src/App.tsx lines 372-374): the transaction's
parsed date lies in the inclusive `[start, end]` range; any `NaN` time
value fails the comparison. -/
def inRange (startS endS : String) (t : Transaction) : Bool :=
  match dateVal t.date, dateVal startS, dateVal endS with
  | some v, some a, some b => a ≤ v && v ≤ b
  | _, _, _ => false

/-- The report's free-text filter (src/App.tsx lines 375-377). -/
def matchesSearch (search : String) (t : Transaction) : Bool :=
  let lowerSearch := lowerStr search
  lowerSearch == "" ||
    strIncludes (lowerStr t.client) lowerSearch ||
    strIncludes (jsNumToString t.amount) lowerSearch

/-- The transactions the report aggregates (src/App.tsx lines 372-379). -/
def reportFiltered (txs : List Transaction) (startS endS search : String) :
    List Transaction :=
  txs.filter (fun t => inRange startS endS t && matchesSearch search t)

/-- The report's scalar sums over the filtered transactions. -/
def reportSums (txs : List Transaction) (startS endS search : String) :
    ReportSums :=
  (reportFiltered txs startS endS search).foldl reportStep ⟨0, 0, 0, 0⟩

/-- `collectionRate` (src/App.tsx line 456). -/
def collectionRate (txs : List Transaction) (startS endS search : String) : ℚ :=
  let s := reportSums txs startS endS search
  if s.collectedDebt + s.pendingDebt > 0 then
    s.collectedDebt / (s.collectedDebt + s.pendingDebt) * 100
  else 0

/-- The scalar accumulators of the dashboard pass: running sales, expense
and debt totals in USD (src/App.tsx lines 338-340). -/
def dashStep (acc : ℚ × ℚ × ℚ) (t : Transaction) : ℚ × ℚ × ℚ :=
  let val := normVal t
  if (t.type == TransactionType.sale || t.type == TransactionType.cash) &&
      t.status == TransactionStatus.completed then
    (acc.1 + val, acc.2.1, acc.2.2)
  else if t.type == TransactionType.expense then
    (acc.1, acc.2.1 + val, acc.2.2)
  else if t.type == TransactionType.debt && t.status != TransactionStatus.completed then
    (acc.1, acc.2.1, acc.2.2 + val)
  else acc

/-- Dashboard Stats (src/App.tsx lines 337-365; the day-of-week histogram
is not needed by any claim and is left out of the record). -/
structure DashStats where
  totalSalesUSD : ℚ
  totalSalesIQD : ℚ
  netProfit : ℚ
  totalDebt : ℚ
  totalExpenses : ℚ
  count : Nat
deriving DecidableEq, Repr

/-- The dashboard aggregation over a working set of transactions
(src/App.tsx lines 337-365). -/
def dashboardStats (txs : List Transaction) : DashStats :=
  let a := txs.foldl dashStep (0, 0, 0)
  { totalSalesUSD := a.1
    totalSalesIQD := a.1 * EXCHANGE_RATE
    netProfit := a.1 - a.2.1
    totalDebt := a.2.2 * EXCHANGE_RATE
    totalExpenses := a.2.1
    count := txs.length }

/-- One per-client debt summary (src/App.tsx line 480). -/
structure DebtSummary where
  total : ℚ
  lastDate : String
  phone : String
  count : Nat
deriving DecidableEq, Repr

/-- A pending debt (the filter of src/App.tsx line 481). -/
def pendingDebtB (t : Transaction) : Bool :=
  t.type == TransactionType.debt && t.status == TransactionStatus.pending

/-- `new Date(d1) > new Date(d2)` — strictly newer; false whenever either
date is invalid (`NaN` compares false). -/
def dateNewer (d1 d2 : String) : Bool :=
  match dateVal d1, dateVal d2 with
  | some a, some b => b < a
  | _, _ => false

/-- The summary a client starts from at its first pending debt
(src/App.tsx line 482). -/
def initSummary (t : Transaction) : DebtSummary :=
  { total := 0, lastDate := t.date, phone := t.clientPhone.getD "", count := 0 }

/-- Folding one pending debt into a client's summary (src/App.tsx lines
483-486). -/
def updateSummary (s : DebtSummary) (t : Transaction) : DebtSummary :=
  { total := s.total + t.amount
    count := s.count + 1
    lastDate := if dateNewer t.date s.lastDate then t.date else s.lastDate
    phone :=
      match t.clientPhone with
      | some p => if p == "" then s.phone else p
      | none => s.phone }

/-- Lookup in an insertion-ordered association list (JS `Map.get`). -/
def alGet (l : List (String × DebtSummary)) (k : String) : Option DebtSummary :=
  (l.find? (fun e => e.1 == k)).map (fun e => e.2)

/-- Update in an insertion-ordered association list (JS `Map.set`):
replace in place if present, else append. -/
def alSet (l : List (String × DebtSummary)) (k : String) (v : DebtSummary) :
    List (String × DebtSummary) :=
  match l with
  | [] => [(k, v)]
  | e :: rest => if e.1 == k then (k, v) :: rest else e :: alSet rest k v

/-- One step of the grouping fold (src/App.tsx lines 481-488). -/
def debtStep (acc : List (String × DebtSummary)) (t : Transaction) :
    List (String × DebtSummary) :=
  alSet acc t.client (updateSummary ((alGet acc t.client).getD (initSummary t)) t)

/-- The debt grouper `debtList` (src/App.tsx lines 479-490), as the
insertion-ordered client → summary map. -/
def debtList (txs : List Transaction) : List (String × DebtSummary) :=
  (txs.filter pendingDebtB).foldl debtStep []

/-- Is this one of `clientName`'s pending debts (src/App.tsx line 612)? -/
def settleTarget (clientName : String) (t : Transaction) : Bool :=
  t.client == clientName && t.type == TransactionType.debt &&
    t.status == TransactionStatus.pending

/-- The update applied to a settled debt (src/App.tsx line 613). -/
def settleUpd (today : String) (t : Transaction) : Transaction :=
  { t with status := TransactionStatus.completed, date := today }

/-- The settlement operation `handleSettleClientDebt` (src/App.tsx lines
610-622): build the updated copies of the client's pending debts, then
replace each transaction whose id matches an updated copy. -/
def settleClientDebt (today clientName : String) (txs : List Transaction) :
    List Transaction :=
  let clientTxs := txs.filter (settleTarget clientName)
  let updatedTxs := clientTxs.map (settleUpd today)
  txs.map (fun t =>
    match updatedTxs.find? (fun u => u.id == t.id) with
    | some u => u
    | none => t)

/-! ## Helper lemmas -/

/-- A head match of the date pattern is in particular a match somewhere. -/
theorem containsDatePat_of_head (l : List Char) (h : datePatAt l = true) :
    containsDatePat l = true := by
  cases l with
  | nil => simp [datePatAt] at h
  | cons c rest => simp [containsDatePat, h]

/-- The debt accumulator of the dashboard fold sums the normalized values
of the outstanding debts. -/
theorem dashStep_debt_sum (txs : List Transaction) (acc : ℚ × ℚ × ℚ) :
    (txs.foldl dashStep acc).2.2 =
      acc.2.2 + ((txs.filter (fun t => t.type == TransactionType.debt &&
        t.status != TransactionStatus.completed)).map normVal).sum := by
  induction txs generalizing acc with
  | nil => simp
  | cons t l ih =>
    rw [List.foldl_cons, ih]
    cases ht : t.type <;> cases hs : t.status <;>
      simp [dashStep, List.filter_cons, ht, hs] <;> ring

/-- The chunking loop produces exactly the consecutive windows of size
`n + 1`: window `i` holds the points at positions `i*(n+1) ..< (i+1)*(n+1)`. -/
theorem chunks_windows (n m : Nat) : ∀ l : List ChartPoint, l.length ≤ m →
    chunksAux n l = (List.range ((l.length + n) / (n + 1))).map
      (fun i => (l.drop (i * (n + 1))).take (n + 1)) := by
  induction m with
  | zero =>
    intro l h
    have hl : l = [] := List.eq_nil_of_length_eq_zero (Nat.le_zero.mp h)
    subst hl
    simp [chunksAux, Nat.div_eq_of_lt (Nat.lt_succ_self n)]
  | succ m ih =>
    intro l hlen
    cases l with
    | nil => simp [chunksAux, Nat.div_eq_of_lt (Nat.lt_succ_self n)]
    | cons x xs =>
      rw [chunksAux, ih (List.drop n xs) (by simp [List.length_drop] at hlen ⊢; omega)]
      have hkey : ((List.drop n xs).length + n) / (n + 1) + 1 =
          ((x :: xs).length + n) / (n + 1) := by
        simp only [List.length_drop, List.length_cons]
        have h2 : xs.length + 1 + n = xs.length + (n + 1) := by omega
        rw [h2, Nat.add_div_right _ (Nat.succ_pos n)]
        rcases Nat.le_total n xs.length with hc | hc
        · have h3 : xs.length - n + n = xs.length := by omega
          rw [h3]
        · have h3 : xs.length - n = 0 := by omega
          rw [h3, Nat.zero_add, Nat.div_eq_of_lt (by omega),
            Nat.div_eq_of_lt (by omega)]
      rw [← hkey, List.range_succ_eq_map, List.map_cons, List.map_map]
      congr 1
      · simp
      apply List.map_congr_left
      intro i hi
      simp only [Function.comp_apply]
      rw [List.drop_drop]
      have h4 : (i + 1) * (n + 1) = (i * (n + 1) + n) + 1 := by ring
      rw [h4, List.drop_succ_cons]
      congr 2
      omega

/-- `optimizeChartData` at the cap 100 computes the spec's windowed
average. -/
theorem optimize_eq_spec (data : List ChartPoint) :
    optimizeChartData data 100 = downsampleSpec data := by
  unfold optimizeChartData downsampleSpec
  by_cases h : data.length ≤ 100
  · simp [h]
  · simp only [if_neg h]
    have hw : 2 ≤ (data.length + 100 - 1) / 100 := by omega
    rw [chunks_windows _ data.length data le_rfl]
    have h1 : (data.length + 100 - 1) / 100 - 1 + 1 = (data.length + 99) / 100 := by
      omega
    have h2 : data.length + ((data.length + 100 - 1) / 100 - 1) =
        data.length + (data.length + 99) / 100 - 1 := by omega
    simp only [h1, h2, List.map_map]
    rfl

/-- The downsampled series never exceeds the cap. -/
theorem optimize_length_le (data : List ChartPoint) :
    (optimizeChartData data 100).length ≤ 100 := by
  unfold optimizeChartData
  by_cases h : data.length ≤ 100
  · simp [h]
  · simp only [if_neg h]
    rw [chunks_windows _ data.length data le_rfl]
    simp only [List.length_map, List.length_range]
    have hw : 2 ≤ (data.length + 100 - 1) / 100 ∧
        data.length ≤ 100 * ((data.length + 100 - 1) / 100) := by
      constructor <;> omega
    have hlt : data.length + ((data.length + 100 - 1) / 100 - 1) <
        101 * (((data.length + 100 - 1) / 100 - 1) + 1) := by omega
    have hpos : 0 < (data.length + 100 - 1) / 100 - 1 + 1 := by omega
    have := (Nat.div_lt_iff_lt_mul hpos).mpr hlt
    omega

/-! ## C2 — chart downsampling -/

/-- C2: with cap 100, a series of at most 100 points is returned unchanged;
a longer series is replaced by the consecutive windows of size
`ceil(length/100)` (last window possibly shorter), each averaged into one
point labelled with the window's first date (`downsampleSpec`); the output
never exceeds 100 points; and downsampling is idempotent. -/
theorem c2_chart_downsampling :
    (∀ data : List ChartPoint, data.length ≤ 100 →
      optimizeChartData data 100 = data) ∧
    (∀ data : List ChartPoint, optimizeChartData data 100 = downsampleSpec data) ∧
    (∀ data : List ChartPoint, (optimizeChartData data 100).length ≤ 100) ∧
    (∀ data : List ChartPoint,
      optimizeChartData (optimizeChartData data 100) 100 =
        optimizeChartData data 100) := by
  have hshort : ∀ data : List ChartPoint, data.length ≤ 100 →
      optimizeChartData data 100 = data := by
    intro data h
    unfold optimizeChartData
    simp [h]
  exact ⟨hshort, optimize_eq_spec, optimize_length_le,
    fun data => hshort _ (optimize_length_le data)⟩

/-- C2 witness: a two-point series is already under the cap and comes back
unchanged. -/
theorem c2_chart_downsampling_witness :
    optimizeChartData [⟨"2024-01-01", "01/01", 5, 3⟩, ⟨"2024-01-02", "01/02", 7, 1⟩] 100 =
      [⟨"2024-01-01", "01/01", 5, 3⟩, ⟨"2024-01-02", "01/02", 7, 1⟩] :=
  c2_chart_downsampling.1 _ (by decide)

/-! ## C5 — header locator fallback policy -/

/-- C5: when no header row is detected among the first `min(10, rowCount)`
rows, the locator returns the fixed fallback mapping name→3, price→8,
date→0 and starts processing at row 1; when a header row is detected at
index `i`, processing starts at `i + 1` and each semantic column that no
cell of the header row names falls back to its fixed index. -/
theorem c5_header_fallback (rows : List (List Cell)) :
    ((∀ i < min rows.length 10, headerPred (rows.getD i []) = false) →
      locateHeader rows =
        { headerRowIdx := none, nameCol := 3, priceCol := 8, dateCol := 0,
          startRow := 1 }) ∧
    (∀ i, findHeaderIdx rows = some i →
      (locateHeader rows).headerRowIdx = some i ∧
      (locateHeader rows).startRow = i + 1 ∧
      ((∀ c ∈ rows.getD i [], nameKeyB (normCell c) = false) →
        (locateHeader rows).nameCol = 3) ∧
      ((∀ c ∈ rows.getD i [], priceKeyB (normCell c) = false) →
        (locateHeader rows).priceCol = 8) ∧
      ((∀ c ∈ rows.getD i [], dateKeyB (normCell c) = false) →
        (locateHeader rows).dateCol = 0)) := by
  have hnone : ∀ (keyB : String → Bool) (row : List Cell),
      (∀ c ∈ row, keyB (normCell c) = false) → findColIdx keyB row = none := by
    intro keyB row hall
    unfold findColIdx
    suffices h : ∀ (st : Nat) (acc : Option Nat), acc = none →
        ((row.enumFrom st).foldl
          (fun acc p => if keyB (normCell p.2) then some p.1 else acc) acc) = none by
      exact h 0 none rfl
    induction row with
    | nil => intro st acc hacc; simpa
    | cons c cs ih =>
      intro st acc hacc
      simp only [List.enumFrom, List.foldl_cons]
      have hc : keyB (normCell c) = false := hall c (by simp)
      rw [hacc]
      have : (if keyB (normCell c) then some st else none) = none := by simp [hc]
      rw [this]
      exact ih (fun x hx => hall x (by simp [hx])) (st + 1) none rfl
  constructor
  · intro hall
    have hfind : findHeaderIdx rows = none := by
      unfold findHeaderIdx
      rw [List.find?_eq_none]
      intro i hi
      simp only [List.mem_range] at hi
      have hh := hall i hi
      simp only [List.getD_eq_getElem?_getD] at hh
      simp [hh]
    unfold locateHeader
    rw [hfind]
  · intro i hfind
    unfold locateHeader
    rw [hfind]
    refine ⟨rfl, rfl, fun h => ?_, fun h => ?_, fun h => ?_⟩ <;>
    · have hx := hnone _ _ h
      simp only [List.getD_eq_getElem?_getD] at hx
      simp [hx]

/-- C5 witness: a grid whose first row is a header naming only the `name`
column gets the price/date fallbacks 8/0 and starts at row 1; a grid with
no header at all gets the full fallback 3/8/0 and also starts at row 1. -/
theorem c5_header_fallback_witness :
    locateHeader [[Cell.str "name"], [Cell.str "x", Cell.num 5]] =
      { headerRowIdx := some 0, nameCol := 0, priceCol := 8, dateCol := 0,
        startRow := 1 } ∧
    locateHeader [[Cell.str "foo"], [Cell.str "bar"]] =
      { headerRowIdx := none, nameCol := 3, priceCol := 8, dateCol := 0,
        startRow := 1 } := by
  constructor
  · have h := (c5_header_fallback [[Cell.str "name"], [Cell.str "x", Cell.num 5]]).2 0
      (by decide)
    obtain ⟨h1, h2, -, h4, h5⟩ := h
    have hp := h4 (by decide)
    have hd := h5 (by decide)
    have hn : (locateHeader [[Cell.str "name"], [Cell.str "x", Cell.num 5]]).nameCol = 0 := by
      decide
    cases hloc : locateHeader [[Cell.str "name"], [Cell.str "x", Cell.num 5]]
    rw [hloc] at h1 h2 hp hd hn
    simp at h1 h2 hp hd hn
    simp [h1, h2, hp, hd, hn]
  · exact (c5_header_fallback [[Cell.str "foo"], [Cell.str "bar"]]).1 (by decide)

/-! ## C1 — date extraction -/

/-- C1 counterexample: the classifier's date regex is unanchored, so the
string cell "x2024-01-05" — not a valid YYYY-MM-DD date string — is
returned verbatim instead of the current date ("2099-12-31" here). -/
theorem c1_counterexample :
    extractDate "2099-12-31" 0 [Cell.str "x2024-01-05"] = "x2024-01-05" ∧
    isFullDatePat "x2024-01-05" = false ∧
    "x2024-01-05" ≠ "2099-12-31" := by
  refine ⟨by decide, by decide, by decide⟩

/-- C1 (amended): a truthy date cell whose string form contains a
`YYYY-MM-DD` digit pattern anywhere is returned verbatim; every other cell
(including missing/empty ones) yields the current date.  In particular any
cell holding a full valid `YYYY-MM-DD` date string is returned
unchanged. -/
theorem c1_date_extraction (today : String) (dateCol : Nat) (row : List Cell) :
    (extractDate today dateCol row =
      if truthy (row.getD dateCol .empty) &&
          containsDatePat (cellStr (row.getD dateCol .empty)).toList then
        cellStr (row.getD dateCol .empty)
      else today) ∧
    (∀ s : String, isFullDatePat s = true →
      row.getD dateCol .empty = Cell.str s →
      extractDate today dateCol row = s) := by
  have h1 : ∀ c : Cell,
      (if truthy c then
        (if containsDatePat (cellStr c).toList then cellStr c else today)
      else today) =
      (if truthy c && containsDatePat (cellStr c).toList then cellStr c else today) := by
    intro c
    cases htr : truthy c <;> cases hc : containsDatePat (cellStr c).toList <;>
      simp [htr, hc]
  have heq : extractDate today dateCol row =
      (if truthy (row.getD dateCol .empty) &&
          containsDatePat (cellStr (row.getD dateCol .empty)).toList then
        cellStr (row.getD dateCol .empty)
      else today) := h1 (row.getD dateCol .empty)
  refine ⟨heq, ?_⟩
  intro s hs hcell
  simp only [isFullDatePat, Bool.and_eq_true, decide_eq_true_eq] at hs
  obtain ⟨hlen, hpat⟩ := hs
  have hne : s ≠ "" := by
    intro h
    rw [h] at hlen
    simp at hlen
  have hcd : containsDatePat s.data = true := containsDatePat_of_head _ hpat
  rw [heq, hcell]
  simp [truthy, cellStr, hne, hcd]

/-- C1 witness: a cell holding the valid date string "2024-01-05" is
returned verbatim, and a missing cell yields the current date. -/
theorem c1_date_extraction_witness :
    extractDate "2099-12-31" 0 [Cell.str "2024-01-05"] = "2024-01-05" ∧
    extractDate "2099-12-31" 0 [] = "2099-12-31" := by
  constructor
  · exact (c1_date_extraction "2099-12-31" 0 [Cell.str "2024-01-05"]).2
      "2024-01-05" (by decide) rfl
  · rw [(c1_date_extraction "2099-12-31" 0 []).1]
    decide

/-! ## C4 — classification precedence -/

/-- C4: a lowercased name containing any expense keyword classifies as
(expense, completed) even when a debt keyword is also present; otherwise a
debt keyword gives (debt, pending); otherwise (sale, completed). -/
theorem c4_classification_precedence (name : String) :
    ((∃ k ∈ expenseKeywords, strIncludes (lowerStr name) k = true) →
      classifyName name = (TransactionType.expense, TransactionStatus.completed)) ∧
    ((¬ ∃ k ∈ expenseKeywords, strIncludes (lowerStr name) k = true) →
      (∃ k ∈ debtKeywords, strIncludes (lowerStr name) k = true) →
      classifyName name = (TransactionType.debt, TransactionStatus.pending)) ∧
    ((¬ ∃ k ∈ expenseKeywords, strIncludes (lowerStr name) k = true) →
      (¬ ∃ k ∈ debtKeywords, strIncludes (lowerStr name) k = true) →
      classifyName name = (TransactionType.sale, TransactionStatus.completed)) := by
  refine ⟨fun he => ?_, fun hne hd => ?_, fun hne hnd => ?_⟩
  · unfold classifyName
    rw [if_pos]
    rw [List.any_eq_true]
    obtain ⟨k, hk, hik⟩ := he
    exact ⟨k, hk, hik⟩
  · unfold classifyName
    rw [if_neg, if_pos]
    · rw [List.any_eq_true]
      obtain ⟨k, hk, hik⟩ := hd
      exact ⟨k, hk, hik⟩
    · rw [List.any_eq_true]
      intro h
      exact hne h
  · unfold classifyName
    rw [if_neg, if_neg]
    · rw [List.any_eq_true]
      intro h
      exact hnd h
    · rw [List.any_eq_true]
      intro h
      exact hne h

/-- C4 witness: "rent debt" contains both an expense keyword and a debt
keyword and is classified as a completed expense. -/
theorem c4_classification_precedence_witness :
    classifyName "rent debt" = (TransactionType.expense, TransactionStatus.completed) :=
  (c4_classification_precedence "rent debt").1 ⟨"rent", by decide, by decide⟩

/-! ## C6 — collection rate -/

/-- The collected-debt accumulator of the report fold sums the normalized
values of the completed debts. -/
theorem reportStep_collected (l : List Transaction) (s : ReportSums) :
    (l.foldl reportStep s).collectedDebt =
      s.collectedDebt + ((l.filter (fun t => t.type == TransactionType.debt &&
        t.status == TransactionStatus.completed)).map normVal).sum := by
  induction l generalizing s with
  | nil => simp
  | cons t l ih =>
    rw [List.foldl_cons, ih]
    cases ht : t.type <;> cases hs : t.status <;>
      simp [reportStep, List.filter_cons, ht, hs] <;> ring

/-- The pending-debt accumulator of the report fold sums the normalized
values of the pending debts. -/
theorem reportStep_pending (l : List Transaction) (s : ReportSums) :
    (l.foldl reportStep s).pendingDebt =
      s.pendingDebt + ((l.filter (fun t => t.type == TransactionType.debt &&
        t.status == TransactionStatus.pending)).map normVal).sum := by
  induction l generalizing s with
  | nil => simp
  | cons t l ih =>
    rw [List.foldl_cons, ih]
    cases ht : t.type <;> cases hs : t.status <;>
      simp [reportStep, List.filter_cons, ht, hs] <;> ring

/-- A positive amount has a positive normalized value. -/
theorem normVal_pos (t : Transaction) (ht : 0 < t.amount) : 0 < normVal t := by
  unfold normVal
  split
  · have : (0 : ℚ) < EXCHANGE_RATE := by norm_num [EXCHANGE_RATE]
    exact div_pos ht this
  · exact ht

/-- C6: over the date/search-filtered transactions, `collectionRate` is
`collected / (collected + pending) * 100` with collected/pending the
normalized sums of completed/pending debts, is 0 when both sums vanish
(in particular when no debt is in range), and is 100 when every debt in
range is completed (and at least one debt is in range). -/
theorem c6_collection_rate (txs : List Transaction) (startS endS search : String)
    (hpos : ∀ t ∈ txs, 0 < t.amount) :
    (collectionRate txs startS endS search =
      (if (((reportFiltered txs startS endS search).filter
              (fun t => t.type == TransactionType.debt &&
                t.status == TransactionStatus.completed)).map normVal).sum +
          (((reportFiltered txs startS endS search).filter
              (fun t => t.type == TransactionType.debt &&
                t.status == TransactionStatus.pending)).map normVal).sum = 0 then 0
        else
          (((reportFiltered txs startS endS search).filter
              (fun t => t.type == TransactionType.debt &&
                t.status == TransactionStatus.completed)).map normVal).sum /
            ((((reportFiltered txs startS endS search).filter
              (fun t => t.type == TransactionType.debt &&
                t.status == TransactionStatus.completed)).map normVal).sum +
             (((reportFiltered txs startS endS search).filter
              (fun t => t.type == TransactionType.debt &&
                t.status == TransactionStatus.pending)).map normVal).sum) * 100)) ∧
    ((∀ t ∈ reportFiltered txs startS endS search, t.type ≠ TransactionType.debt) →
      collectionRate txs startS endS search = 0) ∧
    ((∃ t ∈ reportFiltered txs startS endS search, t.type = TransactionType.debt) →
      (∀ t ∈ reportFiltered txs startS endS search,
        t.type = TransactionType.debt → t.status = TransactionStatus.completed) →
      collectionRate txs startS endS search = 100) := by
  set F := reportFiltered txs startS endS search with hF
  set c := ((F.filter (fun t => t.type == TransactionType.debt &&
    t.status == TransactionStatus.completed)).map normVal).sum with hc
  set p := ((F.filter (fun t => t.type == TransactionType.debt &&
    t.status == TransactionStatus.pending)).map normVal).sum with hp
  have hFpos : ∀ t ∈ F, 0 < t.amount := by
    intro t ht
    exact hpos t (List.mem_filter.mp ht).1
  have hcn : 0 ≤ c := by
    rw [hc]
    apply List.sum_nonneg
    intro x hx
    obtain ⟨t, htm, rfl⟩ := List.mem_map.mp hx
    exact le_of_lt (normVal_pos t (hFpos t (List.mem_filter.mp htm).1))
  have hpn : 0 ≤ p := by
    rw [hp]
    apply List.sum_nonneg
    intro x hx
    obtain ⟨t, htm, rfl⟩ := List.mem_map.mp hx
    exact le_of_lt (normVal_pos t (hFpos t (List.mem_filter.mp htm).1))
  have hrate : collectionRate txs startS endS search =
      (if c + p = 0 then 0 else c / (c + p) * 100) := by
    unfold collectionRate reportSums
    rw [← hF]
    rw [show (reportFiltered txs startS endS search) = F from hF.symm] at *
    have h1 : (F.foldl reportStep ⟨0, 0, 0, 0⟩).collectedDebt = c := by
      rw [reportStep_collected, hc]
      simp
    have h2 : (F.foldl reportStep ⟨0, 0, 0, 0⟩).pendingDebt = p := by
      rw [reportStep_pending, hp]
      simp
    simp only [h1, h2]
    by_cases hz : c + p = 0
    · rw [if_pos hz, if_neg]
      rw [hz]
      exact lt_irrefl 0
    · rw [if_neg hz, if_pos]
      exact lt_of_le_of_ne (by positivity) (Ne.symm hz)
  refine ⟨hrate, fun hnd => ?_, fun hex hall => ?_⟩
  · have hcz : c = 0 := by
      rw [hc]
      have : F.filter (fun t => t.type == TransactionType.debt &&
          t.status == TransactionStatus.completed) = [] := by
        rw [List.filter_eq_nil_iff]
        intro t ht
        simp only [Bool.and_eq_true, beq_iff_eq, not_and]
        intro habs
        exact absurd habs (hnd t ht)
      rw [this]
      rfl
    have hpz : p = 0 := by
      rw [hp]
      have : F.filter (fun t => t.type == TransactionType.debt &&
          t.status == TransactionStatus.pending) = [] := by
        rw [List.filter_eq_nil_iff]
        intro t ht
        simp only [Bool.and_eq_true, beq_iff_eq, not_and]
        intro habs
        exact absurd habs (hnd t ht)
      rw [this]
      rfl
    rw [hrate, hcz, hpz]
    simp
  · have hpz : p = 0 := by
      rw [hp]
      have : F.filter (fun t => t.type == TransactionType.debt &&
          t.status == TransactionStatus.pending) = [] := by
        rw [List.filter_eq_nil_iff]
        intro t ht
        simp only [Bool.and_eq_true, beq_iff_eq, not_and]
        intro h1 h2
        have := hall t ht h1
        rw [this] at h2
        exact absurd h2 (by decide)
      rw [this]
      rfl
    have hcpos : 0 < c := by
      obtain ⟨t, htF, htd⟩ := hex
      have htc : t.status = TransactionStatus.completed := hall t htF htd
      have htm : t ∈ F.filter (fun t => t.type == TransactionType.debt &&
          t.status == TransactionStatus.completed) := by
        rw [List.mem_filter]
        exact ⟨htF, by simp [htd, htc]⟩
      rw [hc]
      apply List.sum_pos
      · intro x hx
        obtain ⟨u, hum, rfl⟩ := List.mem_map.mp hx
        exact normVal_pos u (hFpos u (List.mem_filter.mp hum).1)
      · intro habs
        rw [List.map_eq_nil_iff] at habs
        rw [habs] at htm
        exact absurd htm (List.not_mem_nil t)
    rw [hrate, hpz, if_neg (by simpa using ne_of_gt hcpos)]
    rw [add_zero, div_self (ne_of_gt hcpos), one_mul]

/-- C6 witness: one completed and one pending debt of equal normalized
value give a 50 percent collection rate, matching the formula. -/
theorem c6_collection_rate_witness :
    collectionRate
      [{ id := "a", type := TransactionType.debt, client := "Ali",
         date := "2024-01-05", amount := 10, currency := Currency.usd,
         status := TransactionStatus.completed },
       { id := "b", type := TransactionType.debt, client := "Ali",
         date := "2024-01-06", amount := 10, currency := Currency.usd,
         status := TransactionStatus.pending }]
      "2024-01-01" "2024-12-31" "" = 50 := by
  have h := (c6_collection_rate
    [{ id := "a", type := TransactionType.debt, client := "Ali",
       date := "2024-01-05", amount := 10, currency := Currency.usd,
       status := TransactionStatus.completed },
     { id := "b", type := TransactionType.debt, client := "Ali",
       date := "2024-01-06", amount := 10, currency := Currency.usd,
       status := TransactionStatus.pending }]
    "2024-01-01" "2024-12-31" ""
    (by intro t ht; fin_cases ht <;> norm_num)).1
  rw [h]
  rw [show reportFiltered
      [{ id := "a", type := TransactionType.debt, client := "Ali",
         date := "2024-01-05", amount := 10, currency := Currency.usd,
         status := TransactionStatus.completed },
       { id := "b", type := TransactionType.debt, client := "Ali",
         date := "2024-01-06", amount := 10, currency := Currency.usd,
         status := TransactionStatus.pending }]
      "2024-01-01" "2024-12-31" "" =
      [{ id := "a", type := TransactionType.debt, client := "Ali",
         date := "2024-01-05", amount := 10, currency := Currency.usd,
         status := TransactionStatus.completed },
       { id := "b", type := TransactionType.debt, client := "Ali",
         date := "2024-01-06", amount := 10, currency := Currency.usd,
         status := TransactionStatus.pending }] from by decide]
  simp +decide [List.filter_cons, List.filter_nil, normVal]
  norm_num

/-! ## C7 — debt settlement -/

/-- `settleUpd` keeps the id. -/
theorem settleUpd_id (today : String) (t : Transaction) :
    (settleUpd today t).id = t.id := rfl

/-- With pairwise distinct ids, looking a transaction's id up among the
updated copies finds exactly its own updated copy when it is a settle
target, and nothing otherwise. -/
theorem settle_find (clientName today : String) (txs : List Transaction)
    (hnd : (txs.map (fun t => t.id)).Nodup) :
    ∀ t ∈ txs,
      ((txs.filter (settleTarget clientName)).map (settleUpd today)).find?
        (fun u => u.id == t.id) =
      (if settleTarget clientName t then some (settleUpd today t) else none) := by
  induction txs with
  | nil => intro t ht; cases ht
  | cons s rest ih =>
    intro t ht
    rw [List.map_cons, List.nodup_cons] at hnd
    have hsid : s.id ∉ rest.map (fun t => t.id) := hnd.1
    have hnd2 := hnd.2
    rcases List.mem_cons.mp ht with rfl | htr
    · by_cases hp : settleTarget clientName t
      · rw [List.filter_cons, if_pos hp, List.map_cons, List.find?_cons,
          if_pos hp]
        simp [settleUpd_id]
      · rw [List.filter_cons, if_neg hp, if_neg hp]
        rw [List.find?_eq_none]
        intro u hu
        obtain ⟨r, hrm, rfl⟩ := List.mem_map.mp hu
        have hr : r ∈ rest := List.mem_of_mem_filter hrm
        have : r.id ≠ t.id := by
          intro habs
          exact hsid (habs ▸ List.mem_map_of_mem (fun t => t.id) hr)
        simp [settleUpd_id, this]
    · have hne : s.id ≠ t.id := by
        intro habs
        exact hsid (habs ▸ List.mem_map_of_mem (fun t => t.id) htr)
      by_cases hp : settleTarget clientName s
      · rw [List.filter_cons, if_pos hp, List.map_cons, List.find?_cons]
        have : ((settleUpd today s).id == t.id) = false := by
          simp [settleUpd_id, hne]
        rw [this]
        exact ih hnd2 t htr
      · rw [List.filter_cons, if_neg hp]
        exact ih hnd2 t htr

/-- C7: settling a client's debts (with pairwise distinct transaction ids)
maps each of that client's pending debt transactions to the same record
with status completed and date rewritten to today, leaves every other
transaction untouched, deletes nothing, and leaves no pending debt of that
client behind. -/
theorem c7_settlement (today clientName : String) (txs : List Transaction)
    (hnd : (txs.map (fun t => t.id)).Nodup) :
    settleClientDebt today clientName txs =
      txs.map (fun t =>
        if settleTarget clientName t then settleUpd today t else t) ∧
    (settleClientDebt today clientName txs).length = txs.length ∧
    (∀ t ∈ settleClientDebt today clientName txs,
      t.client = clientName → t.type = TransactionType.debt →
        t.status ≠ TransactionStatus.pending) := by
  have hmain : settleClientDebt today clientName txs =
      txs.map (fun t =>
        if settleTarget clientName t then settleUpd today t else t) := by
    unfold settleClientDebt
    apply List.map_congr_left
    intro t ht
    rw [settle_find clientName today txs hnd t ht]
    by_cases hp : settleTarget clientName t
    · rw [if_pos hp, if_pos hp]
    · rw [if_neg hp, if_neg hp]
  refine ⟨hmain, by rw [hmain]; simp, ?_⟩
  intro t ht hclient htype
  rw [hmain] at ht
  obtain ⟨u, hu, heq⟩ := List.mem_map.mp ht
  by_cases hp : settleTarget clientName u
  · rw [if_pos hp] at heq
    rw [← heq]
    intro habs
    exact absurd habs (by simp [settleUpd])
  · rw [if_neg hp] at heq
    subst heq
    intro habs
    apply hp
    simp only [settleTarget, Bool.and_eq_true, beq_iff_eq]
    exact ⟨⟨hclient, htype⟩, habs⟩

/-- C7 witness: settling "Ali" turns the pending debt into a completed one
dated today and leaves the other client's sale untouched. -/
theorem c7_settlement_witness :
    settleClientDebt "2024-06-01" "Ali"
      [{ id := "T1", type := TransactionType.debt, client := "Ali",
         date := "2024-01-05", amount := 10, currency := Currency.iqd,
         status := TransactionStatus.pending },
       { id := "T2", type := TransactionType.sale, client := "Bob",
         date := "2024-01-06", amount := 7, currency := Currency.usd,
         status := TransactionStatus.completed }] =
      [{ id := "T1", type := TransactionType.debt, client := "Ali",
         date := "2024-06-01", amount := 10, currency := Currency.iqd,
         status := TransactionStatus.completed },
       { id := "T2", type := TransactionType.sale, client := "Bob",
         date := "2024-01-06", amount := 7, currency := Currency.usd,
         status := TransactionStatus.completed }] := by
  rw [(c7_settlement "2024-06-01" "Ali" _ (by decide)).1]
  decide

/-! ## C8 — debt grouping -/

/-- No date is strictly newer than itself. -/
theorem dateNewer_self (d : String) : dateNewer d d = false := by
  unfold dateNewer
  cases dateVal d <;> simp

/-- Nothing is strictly newer than anything when its own date is invalid. -/
theorem dateNewer_left_invalid (d1 d2 : String) (h : dateVal d1 = none) :
    dateNewer d1 d2 = false := by
  unfold dateNewer
  rw [h]

/-- Nothing is strictly newer than an invalid date. -/
theorem dateNewer_right_invalid (d1 d2 : String) (h : dateVal d2 = none) :
    dateNewer d1 d2 = false := by
  unfold dateNewer
  rw [h]
  cases dateVal d1 <;> rfl

/-- `alSet` only touches the first pair keyed by `k`: a search for the
written key finds the written pair, a search for any other key is
unchanged. -/
theorem find_alSet (l : List (String × DebtSummary)) (k k2 : String)
    (v : DebtSummary) :
    ((alSet l k v).find? (fun e => e.1 == k2)) =
      (if k2 = k then some (k, v) else l.find? (fun e => e.1 == k2)) := by
  induction l with
  | nil =>
    by_cases h : k2 = k
    · subst h
      simp [alSet]
    · have h1 : (k == k2) = false := by simp [Ne.symm h]
      simp [alSet, List.find?_cons, h1, h]
  | cons e rest ih =>
    by_cases hek : e.1 = k
    · rw [alSet, if_pos (by simp [hek])]
      by_cases h : k2 = k
      · subst h
        simp [List.find?_cons]
      · have h1 : (k == k2) = false := by simp [Ne.symm h]
        have h2 : (e.1 == k2) = false := by
          rw [hek]
          exact h1
        rw [List.find?_cons, h1, if_neg h, List.find?_cons, h2]
    · rw [alSet, if_neg (by simp [hek])]
      by_cases he2 : e.1 = k2
      · have h1 : (e.1 == k2) = true := by simp [he2]
        have h2 : ¬ k2 = k := by
          intro habs
          exact hek (he2.trans habs)
        rw [List.find?_cons, h1, if_neg h2, List.find?_cons, h1]
      · have h1 : (e.1 == k2) = false := by simp [he2]
        rw [List.find?_cons, h1, ih]
        by_cases h : k2 = k
        · rw [if_pos h, if_pos h]
        · rw [if_neg h, if_neg h, List.find?_cons, h1]

/-- Lookup after `alSet`: the written key now maps to the written value,
all other keys are untouched. -/
theorem alGet_alSet (l : List (String × DebtSummary)) (k k2 : String)
    (v : DebtSummary) :
    alGet (alSet l k v) k2 = (if k2 = k then some v else alGet l k2) := by
  unfold alGet
  rw [find_alSet]
  by_cases h : k2 = k
  · rw [if_pos h, if_pos h]
    rfl
  · rw [if_neg h, if_neg h]

/-- One step of the grouping, seen through a single client's entry. -/
def groupStep (o : Option DebtSummary) (t : Transaction) : Option DebtSummary :=
  some (updateSummary (o.getD (initSummary t)) t)

/-- The grouping fold localizes: a client's entry after folding a list is
the fold of just that client's transactions over its own entry. -/
theorem debtFold_localize (l : List Transaction)
    (acc : List (String × DebtSummary)) (c : String) :
    alGet (l.foldl debtStep acc) c =
      (l.filter (fun t => t.client == c)).foldl groupStep (alGet acc c) := by
  induction l generalizing acc with
  | nil => simp
  | cons t rest ih =>
    rw [List.foldl_cons, ih, List.filter_cons]
    by_cases hc : t.client = c
    · rw [if_pos (by simp [hc]), List.foldl_cons]
      congr 1
      unfold debtStep
      rw [alGet_alSet, if_pos hc.symm, hc]
      rfl
    · rw [if_neg (by simp [hc])]
      congr 1
      unfold debtStep
      rw [alGet_alSet, if_neg (fun habs => hc habs.symm)]

/-- Once an entry exists the option-level fold is the summary-level fold. -/
theorem groupStep_foldl_some (l : List Transaction) (s : DebtSummary) :
    l.foldl groupStep (some s) = some (l.foldl updateSummary s) := by
  induction l generalizing s with
  | nil => rfl
  | cons t rest ih =>
    rw [List.foldl_cons, List.foldl_cons]
    exact ih _

/-- The grouped total accumulates the raw amounts. -/
theorem foldl_update_total (l : List Transaction) (s : DebtSummary) :
    (l.foldl updateSummary s).total = s.total + (l.map (fun t => t.amount)).sum := by
  induction l generalizing s with
  | nil => simp
  | cons t rest ih =>
    rw [List.foldl_cons, ih]
    simp [updateSummary]
    ring

/-- The grouped count accumulates the occurrences. -/
theorem foldl_update_count (l : List Transaction) (s : DebtSummary) :
    (l.foldl updateSummary s).count = s.count + l.length := by
  induction l generalizing s with
  | nil => simp
  | cons t rest ih =>
    rw [List.foldl_cons, ih]
    simp [updateSummary]
    ring

/-- Unfolding of a successful date comparison. -/
theorem dateNewer_true_iff (d1 d2 : String) :
    dateNewer d1 d2 = true ↔
      ∃ a b, dateVal d1 = some a ∧ dateVal d2 = some b ∧ b < a := by
  unfold dateNewer
  rcases h1 : dateVal d1 with _ | a <;> rcases h2 : dateVal d2 with _ | b <;>
    simp

/-- A date older than a strictly newer one is never newer than anything
that the newer one is not newer than. -/
theorem dateNewer_mono (dOld dNew r : String)
    (h1 : dateNewer dNew dOld = true) (h2 : dateNewer dNew r = false) :
    dateNewer dOld r = false := by
  obtain ⟨a, b, hna, hob, hlt⟩ := (dateNewer_true_iff dNew dOld).mp h1
  unfold dateNewer at h2 ⊢
  rw [hob]
  rw [hna] at h2
  rcases hr : dateVal r with _ | vr
  · rfl
  · rw [hr] at h2
    simp at h2 ⊢
    omega

/-- Comparison of two valid dates is the comparison of their day
numbers. -/
theorem dateNewer_some (d1 d2 : String) (a b : Nat) (h1 : dateVal d1 = some a)
    (h2 : dateVal d2 = some b) : dateNewer d1 d2 = decide (b < a) := by
  unfold dateNewer
  rw [h1, h2]

/-- If the running `lastDate` is invalid it never changes. -/
theorem foldl_update_lastDate_invalid (l : List Transaction) (s : DebtSummary)
    (h : dateVal s.lastDate = none) :
    (l.foldl updateSummary s).lastDate = s.lastDate := by
  induction l generalizing s with
  | nil => rfl
  | cons t rest ih =>
    rw [List.foldl_cons]
    have hkeep : (updateSummary s t).lastDate = s.lastDate := by
      simp [updateSummary, dateNewer_right_invalid t.date s.lastDate h]
    rw [ih, hkeep]
    rw [hkeep, h]

/-- The grouped `lastDate` is one of the folded dates (or the seed) and no
folded date compares strictly newer than it. -/
theorem foldl_update_lastDate (l : List Transaction) (s : DebtSummary) :
    ((l.foldl updateSummary s).lastDate ∈
      s.lastDate :: l.map (fun t => t.date)) ∧
    dateNewer s.lastDate (l.foldl updateSummary s).lastDate = false ∧
    (∀ t ∈ l, dateNewer t.date (l.foldl updateSummary s).lastDate = false) := by
  induction l generalizing s with
  | nil => simp [dateNewer_self]
  | cons t rest ih =>
    rw [List.foldl_cons]
    obtain ⟨ihA, ihB, ihC⟩ := ih (updateSummary s t)
    cases hrep : dateNewer t.date s.lastDate with
    | true =>
      have hlast : (updateSummary s t).lastDate = t.date := by
        simp [updateSummary, hrep]
      rw [hlast] at ihA ihB
      refine ⟨List.mem_cons_of_mem _ (by simpa using ihA), ?_, ?_⟩
      · exact dateNewer_mono s.lastDate t.date _ hrep ihB
      · intro u hu
        rcases List.mem_cons.mp hu with h | hur
        · rw [h]
          exact ihB
        · exact ihC u hur
    | false =>
      have hlast : (updateSummary s t).lastDate = s.lastDate := by
        simp [updateSummary, hrep]
      rw [hlast] at ihA ihB
      refine ⟨?_, ihB, ?_⟩
      · rcases List.mem_cons.mp ihA with h | h
        · exact h ▸ List.mem_cons_self _ _
        · exact List.mem_cons_of_mem _ (List.mem_cons_of_mem _ h)
      · intro u hu
        rcases List.mem_cons.mp hu with h | hur
        · rw [h]
          rcases hvs : dateVal s.lastDate with _ | vs
          · have hfin : (rest.foldl updateSummary (updateSummary s t)).lastDate =
                s.lastDate := by
              rw [foldl_update_lastDate_invalid rest (updateSummary s t)
                (by rw [hlast]; exact hvs), hlast]
            rw [hfin]
            exact hrep
          · rcases hvt : dateVal t.date with _ | vt
            · exact dateNewer_left_invalid _ _ hvt
            · have hvtvs : vt ≤ vs := by
                unfold dateNewer at hrep
                rw [hvt, hvs] at hrep
                simp at hrep
                omega
              rcases hvf : dateVal
                  (rest.foldl updateSummary (updateSummary s t)).lastDate
                with _ | vf
              · exact dateNewer_right_invalid _ _ hvf
              · rw [dateNewer_some _ _ vs vf hvs hvf] at ihB
                rw [dateNewer_some _ _ vt vf hvt hvf]
                simp at ihB ⊢
                omega
        · exact ihC u hur

/-- The phone the grouping step keeps. -/
theorem updateSummary_phone (s : DebtSummary) (t : Transaction) :
    (updateSummary s t).phone =
      (if (t.clientPhone.getD "" == "") then s.phone
       else t.clientPhone.getD "") := by
  rcases hp : t.clientPhone with _ | p
  · simp [updateSummary, hp]
  · by_cases h : p = ""
    · simp [updateSummary, hp, h]
    · simp [updateSummary, hp, h]

/-- The grouped phone is the most recently seen truthy phone (the seed's
phone if none occurs). -/
theorem foldl_update_phone (l : List Transaction) (s : DebtSummary) :
    (l.foldl updateSummary s).phone =
      (match l.reverse.find? (fun t => !(t.clientPhone.getD "" == "")) with
       | some t => t.clientPhone.getD ""
       | none => s.phone) := by
  induction l generalizing s with
  | nil => simp
  | cons t rest ih =>
    rw [List.foldl_cons, ih, List.reverse_cons, List.find?_append]
    cases hf : rest.reverse.find? (fun t => !(t.clientPhone.getD "" == "")) with
    | some x => simp [Option.or]
    | none =>
      simp only [Option.or, List.find?_cons, List.find?_nil]
      cases hb : (!(t.clientPhone.getD "" == "")) with
      | true =>
        rw [updateSummary_phone]
        rw [show (t.clientPhone.getD "" == "") = false by simpa using hb]
        rfl
      | false =>
        rw [updateSummary_phone]
        rw [show (t.clientPhone.getD "" == "") = true by simpa using hb]
        rfl

/-- Keys present after `alSet`. -/
theorem mem_alSet_keys (l : List (String × DebtSummary)) (k a : String)
    (v : DebtSummary) :
    a ∈ (alSet l k v).map Prod.fst ↔ a ∈ l.map Prod.fst ∨ a = k := by
  induction l with
  | nil => simp [alSet]
  | cons e rest ih =>
    by_cases hek : e.1 = k
    · rw [alSet, if_pos (by simp [hek])]
      subst hek
      simp
      tauto
    · rw [alSet, if_neg (by simp [hek])]
      simp [ih]
      tauto

/-- `alSet` preserves distinctness of keys. -/
theorem alSet_keys_nodup (l : List (String × DebtSummary)) (k : String)
    (v : DebtSummary) (h : (l.map Prod.fst).Nodup) :
    ((alSet l k v).map Prod.fst).Nodup := by
  induction l with
  | nil => simp [alSet]
  | cons e rest ih =>
    rw [List.map_cons, List.nodup_cons] at h
    by_cases hek : e.1 = k
    · rw [alSet, if_pos (by simp [hek])]
      rw [List.map_cons, List.nodup_cons]
      exact ⟨by rw [← hek]; exact h.1, h.2⟩
    · rw [alSet, if_neg (by simp [hek])]
      rw [List.map_cons, List.nodup_cons]
      refine ⟨?_, ih h.2⟩
      rw [mem_alSet_keys]
      rintro (habs | habs)
      · exact h.1 habs
      · exact hek habs

/-- The grouper's client names are pairwise distinct: one summary per
client. -/
theorem debtList_keys_nodup (txs : List Transaction) :
    ((debtList txs).map Prod.fst).Nodup := by
  unfold debtList
  suffices h : ∀ (l : List Transaction) (acc : List (String × DebtSummary)),
      (acc.map Prod.fst).Nodup → ((l.foldl debtStep acc).map Prod.fst).Nodup by
    exact h _ [] (by simp)
  intro l
  induction l with
  | nil => exact fun acc h => h
  | cons t rest ih => exact fun acc h => ih _ (alSet_keys_nodup _ _ _ h)

/-- C8: the grouper keys are pairwise distinct, and a client with at least
one pending debt gets exactly one summary whose total is the plain sum of
its pending debts' amounts, whose count is their number, whose lastDate is
one of their dates with none strictly newer under parsed-date comparison,
and whose phone is the most recently seen truthy clientPhone (empty if
none). -/
theorem c8_debt_grouping (txs : List Transaction) (c : String)
    (t0 : Transaction) (grest : List Transaction)
    (hg : (txs.filter pendingDebtB).filter (fun t => t.client == c) =
      t0 :: grest) :
    ((debtList txs).map Prod.fst).Nodup ∧
    ∃ s : DebtSummary,
      alGet (debtList txs) c = some s ∧
      s.total = ((t0 :: grest).map (fun t => t.amount)).sum ∧
      s.count = (t0 :: grest).length ∧
      s.lastDate ∈ (t0 :: grest).map (fun t => t.date) ∧
      (∀ t ∈ t0 :: grest, dateNewer t.date s.lastDate = false) ∧
      s.phone = (match (t0 :: grest).reverse.find?
          (fun t => !(t.clientPhone.getD "" == "")) with
        | some t => t.clientPhone.getD ""
        | none => "") := by
  refine ⟨debtList_keys_nodup txs, ?_⟩
  have hloc : alGet (debtList txs) c = (t0 :: grest).foldl groupStep none := by
    unfold debtList
    rw [debtFold_localize, hg]
    rfl
  rw [hloc, List.foldl_cons,
    show groupStep none t0 = some (updateSummary (initSummary t0) t0) from rfl,
    groupStep_foldl_some]
  set s0 := updateSummary (initSummary t0) t0 with hs0
  have h0last : s0.lastDate = t0.date := by
    simp [hs0, updateSummary, initSummary, dateNewer_self]
  have h0phone : s0.phone = t0.clientPhone.getD "" := by
    rw [hs0, updateSummary_phone]
    by_cases h : (t0.clientPhone.getD "" == "") = true
    · rw [if_pos h]
      simp only [initSummary]
    · rw [if_neg h]
  refine ⟨_, rfl, ?_, ?_, ?_, ?_, ?_⟩
  · rw [foldl_update_total]
    have ht : s0.total = t0.amount := by
      simp [hs0, updateSummary, initSummary]
    rw [ht]
    simp
  · rw [foldl_update_count]
    have ht : s0.count = 1 := by simp [hs0, updateSummary, initSummary]
    rw [ht]
    simp
    omega
  · have := (foldl_update_lastDate grest s0).1
    rw [h0last] at this
    simpa using this
  · obtain ⟨hA, hB, hC⟩ := foldl_update_lastDate grest s0
    rw [h0last] at hB
    intro t ht
    rcases List.mem_cons.mp ht with h | hur
    · rw [h]
      exact hB
    · exact hC t hur
  · rw [foldl_update_phone, List.reverse_cons, List.find?_append]
    cases hf : grest.reverse.find? (fun t => !(t.clientPhone.getD "" == "")) with
    | some x => simp [Option.or]
    | none =>
      simp only [Option.or, List.find?_cons, List.find?_nil]
      cases hb : (!(t0.clientPhone.getD "" == "")) with
      | true => rw [h0phone]
      | false =>
        rw [h0phone]
        have hbe : (t0.clientPhone.getD "" == "") = true := by
          simpa using hb
        simpa using hbe

/-- C8 witness: three pending debts for "Ali" of amounts 10, 20, 30 on
three increasing dates group into one summary with total 60, count 3 and
lastDate the most recent date. -/
theorem c8_debt_grouping_witness :
    ∃ s : DebtSummary,
      alGet (debtList
        [{ id := "a", type := TransactionType.debt, client := "Ali",
           date := "2024-01-01", amount := 10, currency := Currency.iqd,
           status := TransactionStatus.pending },
         { id := "b", type := TransactionType.debt, client := "Ali",
           date := "2024-02-02", amount := 20, currency := Currency.iqd,
           status := TransactionStatus.pending },
         { id := "c", type := TransactionType.debt, client := "Ali",
           date := "2024-03-03", amount := 30, currency := Currency.iqd,
           status := TransactionStatus.pending }]) "Ali" = some s ∧
      s.total = 60 ∧ s.count = 3 ∧ s.lastDate = "2024-03-03" := by
  obtain ⟨-, s, hget, htot, hcnt, hmem, hdom, -⟩ := c8_debt_grouping
    [{ id := "a", type := TransactionType.debt, client := "Ali",
       date := "2024-01-01", amount := 10, currency := Currency.iqd,
       status := TransactionStatus.pending },
     { id := "b", type := TransactionType.debt, client := "Ali",
       date := "2024-02-02", amount := 20, currency := Currency.iqd,
       status := TransactionStatus.pending },
     { id := "c", type := TransactionType.debt, client := "Ali",
       date := "2024-03-03", amount := 30, currency := Currency.iqd,
       status := TransactionStatus.pending }] "Ali"
    { id := "a", type := TransactionType.debt, client := "Ali",
      date := "2024-01-01", amount := 10, currency := Currency.iqd,
      status := TransactionStatus.pending }
    [{ id := "b", type := TransactionType.debt, client := "Ali",
       date := "2024-02-02", amount := 20, currency := Currency.iqd,
       status := TransactionStatus.pending },
     { id := "c", type := TransactionType.debt, client := "Ali",
       date := "2024-03-03", amount := 30, currency := Currency.iqd,
       status := TransactionStatus.pending }] (by decide)
  refine ⟨s, hget, ?_, ?_, ?_⟩
  · rw [htot]
    norm_num
  · rw [hcnt]
    rfl
  · have h3 := hdom
      { id := "c", type := TransactionType.debt, client := "Ali",
        date := "2024-03-03", amount := 30, currency := Currency.iqd,
        status := TransactionStatus.pending } (by decide)
    simp only [List.map_cons, List.map_nil, List.mem_cons,
      List.not_mem_nil, or_false] at hmem
    rcases hmem with h | h | h
    · rw [h] at h3
      exact absurd h3 (by decide)
    · rw [h] at h3
      exact absurd h3 (by decide)
    · exact h

/-! ## C3 — amount invariant -/

/-- C3: every record the import emits has a positive amount; a row whose
extracted amount is NaN or zero is dropped (`processRow` yields nothing,
whatever its other cells hold); a non-empty row with a non-zero extracted
amount yields a record storing the absolute value; and replacing a
zero/unparseable-amount row by a non-zero variant lengthens the batch by
exactly one. -/
theorem c3_amount_invariant :
    (∀ (inv : List InventoryItem) (today : String) (rows : List (List Cell)),
      ∀ t ∈ processGrid inv today rows, 0 < t.amount) ∧
    (∀ (inv : List InventoryItem) (today : String) (h : HeaderInfo)
        (row : List Cell),
      (extractAmount h.priceCol row = none ∨
        extractAmount h.priceCol row = some 0) →
      processRow inv today h row = none) ∧
    (∀ (inv : List InventoryItem) (today : String) (h : HeaderInfo)
        (row : List Cell) (a : ℚ),
      row ≠ [] → extractAmount h.priceCol row = some a → a ≠ 0 →
      ∃ t, processRow inv today h row = some t ∧ t.amount = |a|) ∧
    (∀ (inv : List InventoryItem) (today : String) (h : HeaderInfo)
        (pre post : List (List Cell)) (r r2 : List Cell),
      (extractAmount h.priceCol r = none ∨
        extractAmount h.priceCol r = some 0) →
      r2 ≠ [] → (∃ a, extractAmount h.priceCol r2 = some a ∧ a ≠ 0) →
      ((pre ++ r2 :: post).filterMap (processRow inv today h)).length =
        ((pre ++ r :: post).filterMap (processRow inv today h)).length + 1) := by
  have hdrop : ∀ (inv : List InventoryItem) (today : String) (h : HeaderInfo)
      (row : List Cell),
      (extractAmount h.priceCol row = none ∨
        extractAmount h.priceCol row = some 0) →
      processRow inv today h row = none := by
    intro inv today h row hyp
    have hfal : amountFalsy (extractAmount h.priceCol row) = true := by
      rcases hyp with h1 | h1 <;> rw [h1] <;> simp [amountFalsy]
    cases hrow : row.isEmpty <;> simp [processRow, hrow, hfal]
  have hemit : ∀ (inv : List InventoryItem) (today : String) (h : HeaderInfo)
      (row : List Cell) (a : ℚ),
      row ≠ [] → extractAmount h.priceCol row = some a → a ≠ 0 →
      ∃ t, processRow inv today h row = some t ∧ t.amount = |a| := by
    intro inv today h row a hrow hamt hne
    have hempty : row.isEmpty = false := by
      cases row
      · exact absurd rfl hrow
      · rfl
    have hfal : amountFalsy (extractAmount h.priceCol row) = false := by
      rw [hamt]
      simp [amountFalsy, hne]
    rcases hres : processRow inv today h row with _ | t
    · exfalso
      simp only [processRow, hempty, hfal, Bool.false_eq_true, if_false] at hres
      cases hres
    · refine ⟨t, rfl, ?_⟩
      simp only [processRow, hempty, hfal, Bool.false_eq_true, if_false] at hres
      injection hres with hres2
      subst hres2
      rw [hamt]
      rfl
  have hpos : ∀ (inv : List InventoryItem) (today : String)
      (rows : List (List Cell)), ∀ t ∈ processGrid inv today rows,
      0 < t.amount := by
    intro inv today rows t ht
    unfold processGrid at ht
    obtain ⟨row, hrowm, heq⟩ := List.mem_filterMap.mp ht
    rcases hx : extractAmount (locateHeader rows).priceCol row with _ | a
    · rw [hdrop inv today _ row (Or.inl hx)] at heq
      cases heq
    · by_cases ha : a = 0
      · rw [hdrop inv today _ row (Or.inr (ha ▸ hx))] at heq
        cases heq
      · have hrow : row ≠ [] := by
          intro habs
          subst habs
          rw [hdrop inv today _ [] (Or.inl ?_)] at heq
          · cases heq
          · rcases (locateHeader rows).priceCol with _ | n <;>
              simp [extractAmount] at hx ⊢ <;> exact absurd hx.symm ha
        obtain ⟨t2, ht2, hamt2⟩ := hemit inv today _ row a hrow hx ha
        rw [ht2] at heq
        cases heq
        rw [hamt2]
        exact abs_pos.mpr ha
  refine ⟨hpos, hdrop, hemit, ?_⟩
  intro inv today h pre post r r2 hr hr2ne hr2
  obtain ⟨a, ha, hane⟩ := hr2
  obtain ⟨t, ht, -⟩ := hemit inv today h r2 a hr2ne ha hane
  rw [List.filterMap_append, List.filterMap_append,
    List.filterMap_cons_none (hdrop inv today h r hr),
    List.filterMap_cons_some ht]
  simp
  omega

/-- C3 witness: a row with no price cell (amount 0) is dropped; the same
grid position with price cell "7 IQD" yields a record of amount 7. -/
theorem c3_amount_invariant_witness :
    processRow [] "2025-01-01"
      { headerRowIdx := none, nameCol := 3, priceCol := 8, dateCol := 0,
        startRow := 1 }
      [Cell.str "item"] = none ∧
    (∃ t, processRow [] "2025-01-01"
      { headerRowIdx := none, nameCol := 0, priceCol := 1, dateCol := 0,
        startRow := 1 }
      [Cell.str "item", Cell.str "7 IQD"] = some t ∧ t.amount = 7) := by
  constructor
  · exact c3_amount_invariant.2.1 [] "2025-01-01" _ _ (Or.inr rfl)
  · obtain ⟨t, h1, h2⟩ := c3_amount_invariant.2.2.1 [] "2025-01-01"
      { headerRowIdx := none, nameCol := 0, priceCol := 1, dateCol := 0,
        startRow := 1 }
      [Cell.str "item", Cell.str "7 IQD"] 7 (by decide) (by decide)
      (by norm_num)
    exact ⟨t, h1, by rw [h2]; norm_num⟩

/-! ## C10 — no currency normalization in the debt grouper -/

/-- C10: the debt grouper sums each pending debt's raw `amount` with no
currency conversion — for a client holding a 100 USD and a 1520 IQD
pending debt the grouped total is the plain sum 1620 — whereas the
dashboard's `totalDebt` and the report's pending-debt sum normalize each
amount to USD first (100 + 1520/1520 = 101). -/
theorem c10_debt_grouping_no_normalization :
    (∀ (txs : List Transaction) (c : String) (t0 : Transaction)
        (grest : List Transaction),
      (txs.filter pendingDebtB).filter (fun t => t.client == c) = t0 :: grest →
      ∃ s : DebtSummary, alGet (debtList txs) c = some s ∧
        s.total = ((t0 :: grest).map (fun t => t.amount)).sum) ∧
    (∃ s : DebtSummary,
      alGet (debtList
        [{ id := "a", type := TransactionType.debt, client := "Ali",
           date := "2024-01-05", amount := 100, currency := Currency.usd,
           status := TransactionStatus.pending },
         { id := "b", type := TransactionType.debt, client := "Ali",
           date := "2024-01-06", amount := 1520, currency := Currency.iqd,
           status := TransactionStatus.pending }]) "Ali" = some s ∧
      s.total = 1620) ∧
    (dashboardStats
        [{ id := "a", type := TransactionType.debt, client := "Ali",
           date := "2024-01-05", amount := 100, currency := Currency.usd,
           status := TransactionStatus.pending },
         { id := "b", type := TransactionType.debt, client := "Ali",
           date := "2024-01-06", amount := 1520, currency := Currency.iqd,
           status := TransactionStatus.pending }]).totalDebt =
      101 * EXCHANGE_RATE ∧
    (reportSums
        [{ id := "a", type := TransactionType.debt, client := "Ali",
           date := "2024-01-05", amount := 100, currency := Currency.usd,
           status := TransactionStatus.pending },
         { id := "b", type := TransactionType.debt, client := "Ali",
           date := "2024-01-06", amount := 1520, currency := Currency.iqd,
           status := TransactionStatus.pending }]
        "2024-01-01" "2024-12-31" "").pendingDebt = 101 := by
  have hgen : ∀ (txs : List Transaction) (c : String) (t0 : Transaction)
      (grest : List Transaction),
      (txs.filter pendingDebtB).filter (fun t => t.client == c) = t0 :: grest →
      ∃ s : DebtSummary, alGet (debtList txs) c = some s ∧
        s.total = ((t0 :: grest).map (fun t => t.amount)).sum := by
    intro txs c t0 grest hg
    have hloc : alGet (debtList txs) c = (t0 :: grest).foldl groupStep none := by
      unfold debtList
      rw [debtFold_localize, hg]
      rfl
    rw [hloc, List.foldl_cons,
      show groupStep none t0 = some (updateSummary (initSummary t0) t0) from rfl,
      groupStep_foldl_some]
    refine ⟨_, rfl, ?_⟩
    rw [foldl_update_total]
    have ht : (updateSummary (initSummary t0) t0).total = t0.amount := by
      simp [updateSummary, initSummary]
    rw [ht]
    simp
  refine ⟨hgen, ?_, ?_, ?_⟩
  · obtain ⟨s, hget, htot⟩ := hgen
      [{ id := "a", type := TransactionType.debt, client := "Ali",
         date := "2024-01-05", amount := 100, currency := Currency.usd,
         status := TransactionStatus.pending },
       { id := "b", type := TransactionType.debt, client := "Ali",
         date := "2024-01-06", amount := 1520, currency := Currency.iqd,
         status := TransactionStatus.pending }] "Ali"
      { id := "a", type := TransactionType.debt, client := "Ali",
        date := "2024-01-05", amount := 100, currency := Currency.usd,
        status := TransactionStatus.pending }
      [{ id := "b", type := TransactionType.debt, client := "Ali",
         date := "2024-01-06", amount := 1520, currency := Currency.iqd,
         status := TransactionStatus.pending }] (by decide)
    refine ⟨s, hget, ?_⟩
    rw [htot]
    norm_num
  · show (List.foldl dashStep (0, 0, 0) _).2.2 * EXCHANGE_RATE = _
    rw [dashStep_debt_sum]
    simp +decide [List.filter_cons, List.filter_nil, normVal, EXCHANGE_RATE]
    norm_num
  · unfold reportSums
    rw [reportStep_pending,
      show reportFiltered
        [{ id := "a", type := TransactionType.debt, client := "Ali",
           date := "2024-01-05", amount := 100, currency := Currency.usd,
           status := TransactionStatus.pending },
         { id := "b", type := TransactionType.debt, client := "Ali",
           date := "2024-01-06", amount := 1520, currency := Currency.iqd,
           status := TransactionStatus.pending }]
        "2024-01-01" "2024-12-31" "" =
        [{ id := "a", type := TransactionType.debt, client := "Ali",
           date := "2024-01-05", amount := 100, currency := Currency.usd,
           status := TransactionStatus.pending },
         { id := "b", type := TransactionType.debt, client := "Ali",
           date := "2024-01-06", amount := 1520, currency := Currency.iqd,
           status := TransactionStatus.pending }] from by decide]
    simp +decide [List.filter_cons, List.filter_nil, normVal, EXCHANGE_RATE]
    norm_num

/-- C10 witness: two pending IQD debts of 10 and 15 for "Bob" group to the
raw total 25. -/
theorem c10_debt_grouping_no_normalization_witness :
    ∃ s : DebtSummary,
      alGet (debtList
        [{ id := "x", type := TransactionType.debt, client := "Bob",
           date := "2024-01-05", amount := 10, currency := Currency.iqd,
           status := TransactionStatus.pending },
         { id := "y", type := TransactionType.debt, client := "Bob",
           date := "2024-01-06", amount := 15, currency := Currency.usd,
           status := TransactionStatus.pending }]) "Bob" = some s ∧
      s.total = 25 := by
  obtain ⟨s, hget, htot⟩ := c10_debt_grouping_no_normalization.1
    [{ id := "x", type := TransactionType.debt, client := "Bob",
       date := "2024-01-05", amount := 10, currency := Currency.iqd,
       status := TransactionStatus.pending },
     { id := "y", type := TransactionType.debt, client := "Bob",
       date := "2024-01-06", amount := 15, currency := Currency.usd,
       status := TransactionStatus.pending }] "Bob"
    { id := "x", type := TransactionType.debt, client := "Bob",
      date := "2024-01-05", amount := 10, currency := Currency.iqd,
      status := TransactionStatus.pending }
    [{ id := "y", type := TransactionType.debt, client := "Bob",
       date := "2024-01-06", amount := 15, currency := Currency.usd,
       status := TransactionStatus.pending }] (by decide)
  refine ⟨s, hget, ?_⟩
  rw [htot]
  norm_num

/-! ## C9 — dashboard derived totals -/

/-- C9: `totalSalesIQD` is always the USD total times the fixed exchange
rate 1520, and `totalDebt` is the normalized-USD sum of the non-completed
debts re-expressed in IQD by multiplying by 1520. -/
theorem c9_dashboard_derived_totals (txs : List Transaction) :
    (dashboardStats txs).totalSalesIQD =
      (dashboardStats txs).totalSalesUSD * EXCHANGE_RATE ∧
    (dashboardStats txs).totalDebt =
      ((txs.filter (fun t => t.type == TransactionType.debt &&
        t.status != TransactionStatus.completed)).map normVal).sum * EXCHANGE_RATE := by
  constructor
  · rfl
  · show (txs.foldl dashStep (0, 0, 0)).2.2 * EXCHANGE_RATE = _
    rw [dashStep_debt_sum]
    ring

end Sari
